import Mathlib

/-!
Shallow embedding of `src/handler.ts` (snyk-reachable-lambda).

The source is a single AWS Lambda handler that
1. reads `snykIssueUrl` and `severity` from the request body,
2. checks the `authToken` environment variable,
3. validates the severity against `['critical','high','medium','low']`,
4. decomposes the URL with three regexes,
5. resolves the org slug to an org id (one lookup, first item),
6. walks a paginated issue collection following `links.next` until the
   target key is found or pages run out (`fetchAllIssuesAndFindTarget`),
7. evaluates a reachability predicate over the found issue's coordinates,
8. maps axios failures to a response via the catch block.

Modelling conventions:
* JavaScript string truthiness (`!s` is true for `undefined` and `""`) is
  modelled by `truthy : Option String → Bool`.
* The network is passed in explicitly: the body the single orgs request
  would return, and the list of bodies the successive issue-page requests
  would return (the page reached by the n-th `links.next` hop is the n-th
  list entry; a request that throws an axios error is an `err` entry).
* The handler result carries the produced response, the number of network
  requests performed, and the issues URL it constructed (if it got there),
  so that claims about "no network call" and "uses the first org's id"
  are statable.
* Interface fields the handler never reads (timestamps, severities,
  relationships, ...) are omitted from the record types; fields the code
  accesses defensively (`coordinates &&`, `!response.data.data`,
  `links?.next`, `error.response?.status`) are `Option`s.
* `toLowerCase` stands for JavaScript `toLowerCase()` (they agree on
  ASCII, which is all the severity comparison needs).
-/

/-- JavaScript truthiness of an optional string: `undefined` and `""` are falsy. -/
def truthy : Option String → Bool
  | none => false
  | some s => s != ""

/-- Models JavaScript `toLowerCase()`: characterwise `Char.toLower`
over the string's characters (exact on ASCII, which is all the severity
comparison involves). -/
def toLowerCase (s : String) : String := String.mk (s.data.map Char.toLower)

-- ## Data model (from the TypeScript interfaces, logic-relevant fields only)

/-- One entry of `SnykOrgResponse.data`; the handler only reads `id`. -/
structure SnykOrgData where
  id : String
deriving Repr, DecidableEq

/-- Body of the orgs lookup response; `data` is `Option` because the code
checks `!orgsResponse.data.data`. -/
structure SnykOrgResponse where
  data : Option (List SnykOrgData)
deriving Repr, DecidableEq

/-- One coordinate of an issue; the handler only reads `reachability`. -/
structure SnykIssueCoordinate where
  reachability : String
deriving Repr, DecidableEq

/-- Issue attributes; the handler reads `key` and `coordinates` (checked
for truthiness before use, hence `Option`). -/
structure SnykIssueAttributes where
  coordinates : Option (List SnykIssueCoordinate)
  key : String
deriving Repr, DecidableEq

/-- One issue record; the handler reads `id` and `attributes`. -/
structure SnykIssueData where
  id : String
  attributes : SnykIssueAttributes
deriving Repr, DecidableEq

/-- Pagination links of an issues page (`links?.next`). -/
structure SnykIssuesLinks where
  next : Option String
deriving Repr, DecidableEq

/-- Body of one issues page; `data` is `Option` because the code checks
`!response.data.data`, and `links` because it writes `links?.next`. -/
structure SnykIssuesResponse where
  data : Option (List SnykIssueData)
  links : Option SnykIssuesLinks
deriving Repr, DecidableEq

/-- First element of the `errors` array of an upstream error body; the
catch block only reads `detail` (and skips it when falsy). -/
structure SnykErrorItem where
  detail : Option String
deriving Repr, DecidableEq

/-- The parts of an axios error the catch block inspects:
`error.message`, `error.response?.status`, and the `errors` array of
`error.response?.data` when that body is an object carrying one. -/
structure AxiosErrorInfo where
  message : String
  responseStatus : Option Nat
  responseErrors : Option (List SnykErrorItem)
deriving Repr, DecidableEq

/-- Outcome of one upstream GET: a body, or a thrown axios error. -/
inductive Fetched (α : Type) where
  | ok : α → Fetched α
  | err : AxiosErrorInfo → Fetched α
deriving Repr, DecidableEq

/-- The remote state one invocation observes: the body of the single orgs
lookup, and the chain of issue pages in the order the `links.next` hops
would reach them. -/
structure Upstream where
  orgs : Fetched SnykOrgResponse
  issues : List (Fetched SnykIssuesResponse)
deriving Repr, DecidableEq

/-- Parsed request body; each field is absent or a string. -/
structure Request where
  snykIssueUrl : Option String
  severity : Option String
deriving Repr, DecidableEq

/-- Body of the Lambda response: an error payload `{message}` or the
success payload `{issueId, isReachable, fullIssueData}`. -/
inductive ResponseBody where
  | message : String → ResponseBody
  | success : String → Bool → SnykIssueData → ResponseBody
deriving Repr, DecidableEq

/-- The `APIGatewayProxyResult` pair the handler returns. -/
structure HandlerResponse where
  statusCode : Nat
  body : ResponseBody
deriving Repr, DecidableEq

/-- Handler result instrumented with the number of upstream requests made
and the issues URL constructed (when execution reached that line). -/
structure HandlerOutput where
  response : HandlerResponse
  networkCalls : Nat
  issuesUrl : Option String
deriving Repr, DecidableEq

-- ## Reachability evaluator (handler.ts lines 255-263)

/-- Embeds the `isReachable` loop: false unless `coordinates` is present
and nonempty, true iff some coordinate has reachability `"function"` or
`"package"` (the `break` makes the loop equivalent to an any-scan). -/
def isReachable (coordinates : Option (List SnykIssueCoordinate)) : Bool :=
  match coordinates with
  | none => false
  | some cs =>
    cs.any fun coordinate =>
      coordinate.reachability == "function" || coordinate.reachability == "package"

-- ## Issue locator (handler.ts lines 126-162)

/-- The `links?.next` field of a page. -/
def nextLink (page : SnykIssuesResponse) : Option String :=
  page.links.bind SnykIssuesLinks.next

/-- Whether the `while (currentUrl)` loop continues after this page: its
next link must exist and be truthy (an empty-string link is falsy). -/
def hasNext (page : SnykIssuesResponse) : Bool :=
  truthy (nextLink page)

/-- The scan of one page's item list for the target key, in returned
order (`for (const issue of response.data.data)`). -/
def findOnPage (page : SnykIssuesResponse) (targetIssueKey : String) : Option SnykIssueData :=
  (page.data.getD []).find? fun issue => issue.attributes.key == targetIssueKey

/-- Embeds `fetchAllIssuesAndFindTarget`. The pages the successive URLs
would return are supplied as a list; the result pairs the number of
requests performed with the loop's outcome (`error` when a fetch threw,
propagated to the handler's catch block). An absent item list takes the
`continue` branch, which advances to `links?.next` exactly like the
normal end of an iteration; an exhausted list stands for a next link
pointing outside the simulated chain and ends the walk. -/
def fetchAllIssuesAndFindTarget :
    List (Fetched SnykIssuesResponse) → String → Nat × Except AxiosErrorInfo (Option SnykIssueData)
  | [], _ => (0, .ok none)
  | .err e :: _, _ => (1, .error e)
  | .ok page :: rest, targetIssueKey =>
    match findOnPage page targetIssueKey with
    | some issue => (1, .ok (some issue))
    | none =>
      if hasNext page then
        let r := fetchAllIssuesAndFindTarget rest targetIssueKey
        (r.1 + 1, r.2)
      else
        (1, .ok none)

/-- Whether a page's item list contains the target key. -/
def pageHasKey (page : SnykIssuesResponse) (key : String) : Bool :=
  (findOnPage page key).isSome

/-- A well-formed simulated chain: nonempty, every page except the last
carries a (truthy) next link, and the last page does not. -/
def chainWF : List SnykIssuesResponse → Bool
  | [] => false
  | [page] => !(hasNext page)
  | page :: rest => hasNext page && chainWF rest

-- ## URL decomposer (handler.ts lines 209-222)

/-- Literal `/org/` of the org-slug regex. -/
def litOrg : List Char := '/' :: 'o' :: 'r' :: 'g' :: '/' :: []

/-- Literal `/project/` of the org-slug and project-id regexes. -/
def litProject : List Char := '/' :: 'p' :: 'r' :: 'o' :: 'j' :: 'e' :: 'c' :: 't' :: '/' :: []

/-- Literal `#issue-` of the issue-id regex. -/
def litIssue : List Char := '#' :: 'i' :: 's' :: 's' :: 'u' :: 'e' :: '-' :: []

/-- Character class `[a-f0-9-]` of the project-id regex. -/
def projectIdChar (c : Char) : Bool :=
  ('a' ≤ c && c ≤ 'f') || ('0' ≤ c && c ≤ '9') || c == '-'

/-- What JavaScript regex `.` matches (without the `s` flag): any
character except the four line terminators. -/
def jsDot (c : Char) : Bool :=
  !(c == '\n' || c == '\r' || c == ' ' || c == ' ')

/-- Attempts the pattern of `/\/org\/([^\/]+)\/project\//` at the start
of `s`. Backtracking cannot help here: `[^/]+` is maximal because a
shorter capture would be followed by a non-slash character while the
pattern demands `/project/`, so the greedy scan is exact. -/
def tryOrgAt (s : List Char) : Option (List Char) :=
  if litOrg.isPrefixOf s then
    let rest := s.drop litOrg.length
    let seg := rest.takeWhile fun c => c != '/'
    if seg.isEmpty then none
    else if litProject.isPrefixOf (rest.drop seg.length) then some seg
    else none
  else none

/-- Attempts the pattern of `/\/project\/([a-f0-9-]+)(?:#|$)/` at the
start of `s`. Backtracking cannot help: a shorter capture would be
followed by a `[a-f0-9-]` character, which is neither `#` nor the end,
so only the maximal class run can match. -/
def tryProjectAt (s : List Char) : Option (List Char) :=
  if litProject.isPrefixOf s then
    let rest := s.drop litProject.length
    let run := rest.takeWhile projectIdChar
    if run.isEmpty then none
    else
      match rest.drop run.length with
      | [] => some run
      | c :: _ => if c == '#' then some run else none
  else none

/-- Attempts the pattern of `/#issue-(.+)/` at the start of `s`: greedy
`.+` captures the maximal run of non-line-terminator characters, which
must be nonempty; nothing follows the group, so there is no backtracking. -/
def tryIssueAt (s : List Char) : Option (List Char) :=
  if litIssue.isPrefixOf s then
    let run := (s.drop litIssue.length).takeWhile jsDot
    if run.isEmpty then none else some run
  else none

/-- JavaScript `String.prototype.match` semantics for an unanchored
pattern: try the pattern at every start position from left to right
(including the end-of-string position) and return the first capture. -/
def scanFirst (f : List Char → Option (List Char)) : List Char → Option (List Char)
  | [] => f []
  | c :: cs =>
    match f (c :: cs) with
    | some r => some r
    | none => scanFirst f cs

/-- Embeds `snykIssueUrl.match(/\/org\/([^\/]+)\/project\//)`, yielding
capture group 1 of the first match. -/
def matchOrgSlug (s : List Char) : Option (List Char) :=
  scanFirst tryOrgAt s

/-- Embeds `snykIssueUrl.match(/\/project\/([a-f0-9-]+)(?:#|$)/)`,
yielding capture group 1 of the first match. -/
def matchProjectId (s : List Char) : Option (List Char) :=
  scanFirst tryProjectAt s

/-- Embeds `snykIssueUrl.match(/#issue-(.+)/)`, yielding capture group 1
of the first match. -/
def matchIssueId (s : List Char) : Option (List Char) :=
  scanFirst tryIssueAt s

/-- The all-or-nothing decomposition of lines 209-222: the three
extracted identifiers when all three regexes match, `none` (the
aggregate 400 path) when any of them fails. -/
def decompose (url : String) : Option (String × String × String) :=
  match matchOrgSlug url.data, matchProjectId url.data, matchIssueId url.data with
  | some orgSlug, some projectId, some issueId =>
    some (String.mk orgSlug, String.mk projectId, String.mk issueId)
  | _, _, _ => none

-- ## Response messages and URLs (verbatim from the source templates)

/-- Message of the missing-field 400 (line 187). -/
def missingFieldsMessage : String := "Missing snykIssueUrl or severity in request body."

/-- Message of the missing-credential 500 (line 195). -/
def authTokenMessage : String :=
  "Authentication token is not configured in Lambda environment variables."

/-- The `validSeverities` array (line 199). -/
def validSeverities : List String := ["critical", "high", "medium", "low"]

/-- Message of the invalid-severity 400 (line 204). -/
def invalidSeverityMessage (incomingSeverity : String) : String :=
  "Invalid severity level: \"" ++ incomingSeverity ++ "\". Must be one of: " ++
    String.intercalate ", " validSeverities ++ "."

/-- Message of the bad-URL 400 (line 216). -/
def invalidUrlMessage : String :=
  "Invalid Snyk issue URL format. Could not extract orgSlug, projectId, or issueId."

/-- Message of the org-not-found 404 (line 238). -/
def orgNotFoundMessage (orgSlug : String) : String :=
  "Organization not found for the given slug: " ++ orgSlug

/-- Message of the issue-not-found 404 (line 251). -/
def issueNotFoundMessage (issueId projectId orgSlug incomingSeverity : String) : String :=
  "Issue with key \"" ++ issueId ++ "\" not found for project " ++ projectId ++
    " in organization " ++ orgSlug ++ " with effective severity \"" ++ incomingSeverity ++ "\"."

/-- Base URL constant (line 226). -/
def snykApiBase : String := "https://api.snyk.io/rest"

/-- API version constant (line 227). -/
def snykApiVersion : String := "2024-10-15"

/-- The orgs lookup URL (line 229). -/
def orgsUrl (orgSlug : String) : String :=
  snykApiBase ++ "/orgs?version=" ++ snykApiVersion ++ "&slug=" ++ orgSlug

/-- The initial issues URL (line 244). -/
def initialIssuesUrl (orgId projectId snykApiSeverityParam : String) : String :=
  snykApiBase ++ "/orgs/" ++ orgId ++ "/issues?version=" ++ snykApiVersion ++
    "&scan_item.id=" ++ projectId ++ "&scan_item.type=project&effective_severity_level=" ++
    snykApiSeverityParam ++ "&limit=100"

-- ## Catch block (handler.ts lines 279-301)

/-- Embeds the axios branch of the catch block: status is
`error.response?.status || 500` (the JavaScript `||` falls back on a
missing status, and also on the falsy number 0, which an HTTP status
line can never carry), and the message appends the first structured
detail of the upstream error body when that detail is truthy. -/
def axiosCatch (e : AxiosErrorInfo) : HandlerResponse :=
  let statusCode : Nat :=
    match e.responseStatus with
    | some s => if s == 0 then 500 else s
    | none => 500
  let errorMessage := "Snyk API request failed: " ++ e.message
  let errorMessage :=
    match e.responseErrors with
    | some (first :: _) =>
      match first.detail with
      | some d => if d == "" then errorMessage else errorMessage ++ " Details: " ++ d
      | none => errorMessage
    | _ => errorMessage
  ⟨statusCode, .message errorMessage⟩

-- ## Orchestrator (handler.ts lines 166-303)

/-- The body of the `try` block, entered once the request fields, the
token, and the severity have passed their checks. -/
def tryBlock (snykIssueUrl incomingSeverity snykApiSeverityParam : String)
    (net : Upstream) : HandlerOutput :=
  match matchOrgSlug snykIssueUrl.data, matchProjectId snykIssueUrl.data,
      matchIssueId snykIssueUrl.data with
  | some orgSlug, some projectId, some issueId =>
    (match net.orgs with
     | .err e => ⟨axiosCatch e, 1, none⟩
     | .ok orgsResponse =>
       match orgsResponse.data with
       | none => ⟨⟨404, .message (orgNotFoundMessage (String.mk orgSlug))⟩, 1, none⟩
       | some [] => ⟨⟨404, .message (orgNotFoundMessage (String.mk orgSlug))⟩, 1, none⟩
       | some (firstOrg :: _) =>
         let issuesUrl := initialIssuesUrl firstOrg.id (String.mk projectId) snykApiSeverityParam
         match fetchAllIssuesAndFindTarget net.issues (String.mk issueId) with
         | (n, .error e) => ⟨axiosCatch e, 1 + n, some issuesUrl⟩
         | (n, .ok none) =>
           ⟨⟨404, .message (issueNotFoundMessage (String.mk issueId) (String.mk projectId)
               (String.mk orgSlug) incomingSeverity)⟩, 1 + n, some issuesUrl⟩
         | (n, .ok (some foundIssue)) =>
           ⟨⟨200, .success foundIssue.id (isReachable foundIssue.attributes.coordinates)
               foundIssue⟩, 1 + n, some issuesUrl⟩)
  | _, _, _ => ⟨⟨400, .message invalidUrlMessage⟩, 0, none⟩

/-- Embeds the exported `handler` (after JSON body parsing): field and
token truthiness checks, severity validation, then the try block. -/
def handler (requestBody : Request) (authToken : Option String) (net : Upstream) :
    HandlerOutput :=
  if !(truthy requestBody.snykIssueUrl) || !(truthy requestBody.severity) then
    ⟨⟨400, .message missingFieldsMessage⟩, 0, none⟩
  else if !(truthy authToken) then
    ⟨⟨500, .message authTokenMessage⟩, 0, none⟩
  else
    let snykIssueUrl := requestBody.snykIssueUrl.getD ""
    let incomingSeverity := requestBody.severity.getD ""
    let snykApiSeverityParam := toLowerCase incomingSeverity
    if !(validSeverities.contains snykApiSeverityParam) then
      ⟨⟨400, .message (invalidSeverityMessage incomingSeverity)⟩, 0, none⟩
    else
      tryBlock snykIssueUrl incomingSeverity snykApiSeverityParam net

-- ## Claim theorems: reachability, validation, and guard ordering

/-- C1: the reachability evaluation is false for an absent or empty
coordinate list, and true exactly when some coordinate's reachability is
exactly "function" or exactly "package". -/
theorem spec_C1 :
    isReachable none = false ∧ isReachable (some []) = false ∧
    ∀ cs : List SnykIssueCoordinate,
      (isReachable (some cs) = true ↔
        ∃ c ∈ cs, c.reachability = "function" ∨ c.reachability = "package") := by
  refine ⟨rfl, rfl, fun cs => ?_⟩
  simp [isReachable, List.any_eq_true]

/-- C7: a request missing snykIssueUrl or severity gets a 400 with no
network call; a request with both fields but no authToken in the
environment gets a 500 with no network call. -/
theorem spec_C7 :
    (∀ (req : Request) (tok : Option String) (net : Upstream),
        req.snykIssueUrl = none ∨ req.severity = none →
        handler req tok net = ⟨⟨400, .message missingFieldsMessage⟩, 0, none⟩) ∧
    (∀ (u s : String) (net : Upstream), u ≠ "" → s ≠ "" →
        handler ⟨some u, some s⟩ none net = ⟨⟨500, .message authTokenMessage⟩, 0, none⟩) := by
  constructor
  · rintro req tok net (h | h) <;> simp [handler, truthy, h]
  · intro u s net hu hs
    simp [handler, truthy, hu, hs]

/-- Witness for C7 at concrete inputs. -/
theorem spec_C7_witness :
    handler ⟨none, some "high"⟩ (some "t") ⟨.ok ⟨none⟩, []⟩ =
      ⟨⟨400, .message missingFieldsMessage⟩, 0, none⟩ ∧
    handler ⟨some "u", some "high"⟩ none ⟨.ok ⟨none⟩, []⟩ =
      ⟨⟨500, .message authTokenMessage⟩, 0, none⟩ :=
  ⟨spec_C7.1 ⟨none, some "high"⟩ (some "t") ⟨.ok ⟨none⟩, []⟩ (Or.inl rfl),
   spec_C7.2 "u" "high" ⟨.ok ⟨none⟩, []⟩ (by decide) (by decide)⟩

/-- C9: the credential check precedes severity validation — with an
invalid severity and an absent authToken the handler answers 500
(configuration), not 400 (invalid severity). -/
theorem spec_C9 (u s : String) (net : Upstream) (hu : u ≠ "") (hs : s ≠ "")
    (hsev : toLowerCase s ∉ validSeverities) :
    handler ⟨some u, some s⟩ none net = ⟨⟨500, .message authTokenMessage⟩, 0, none⟩ := by
  simp [handler, truthy, hu, hs]

/-- Witness for C9 at concrete inputs. -/
theorem spec_C9_witness :
    handler ⟨some "x", some "bogus"⟩ none ⟨.ok ⟨none⟩, []⟩ =
      ⟨⟨500, .message authTokenMessage⟩, 0, none⟩ :=
  spec_C9 "x" "bogus" ⟨.ok ⟨none⟩, []⟩ (by decide) (by decide) (by decide)

/-- C5: a severity whose lowercase form is one of critical, high,
medium, low passes validation (the handler proceeds into the try
block); any other severity string, the empty string included, gets a
400 with no network call. -/
theorem spec_C5 :
    (∀ (u s tokv : String) (net : Upstream), u ≠ "" → tokv ≠ "" →
        toLowerCase s ∈ validSeverities →
        handler ⟨some u, some s⟩ (some tokv) net = tryBlock u s (toLowerCase s) net) ∧
    (∀ (u s tokv : String) (net : Upstream), tokv ≠ "" →
        toLowerCase s ∉ validSeverities →
        (handler ⟨some u, some s⟩ (some tokv) net).response.statusCode = 400 ∧
        (handler ⟨some u, some s⟩ (some tokv) net).networkCalls = 0) := by
  constructor
  · intro u s tokv net hu htok hsev
    have hs : s ≠ "" := by
      rintro rfl
      simp [toLowerCase, validSeverities] at hsev
    simp [handler, truthy, hu, hs, htok, hsev]
  · intro u s tokv net htok hsev
    by_cases hs : s = ""
    · subst hs
      simp [handler, truthy]
    · by_cases hu : u = ""
      · subst hu
        simp [handler, truthy]
      · simp [handler, truthy, hu, hs, htok, hsev]

/-- Witness for C5 at concrete inputs. -/
theorem spec_C5_witness :
    handler ⟨some "x", some "HIGH"⟩ (some "t") ⟨.ok ⟨none⟩, []⟩ =
      tryBlock "x" "HIGH" (toLowerCase "HIGH") ⟨.ok ⟨none⟩, []⟩ ∧
    (handler ⟨some "x", some "bogus"⟩ (some "t") ⟨.ok ⟨none⟩, []⟩).response.statusCode = 400 ∧
    (handler ⟨some "x", some "bogus"⟩ (some "t") ⟨.ok ⟨none⟩, []⟩).networkCalls = 0 :=
  ⟨spec_C5.1 "x" "HIGH" "t" ⟨.ok ⟨none⟩, []⟩ (by decide) (by decide) (by decide),
   spec_C5.2 "x" "bogus" "t" ⟨.ok ⟨none⟩, []⟩ (by decide) (by decide)⟩

-- ## Pagination lemmas

/-- A page fails the key test exactly when its scan finds nothing. -/
theorem pageHasKey_false_iff (page : SnykIssuesResponse) (key : String) :
    pageHasKey page key = false ↔ findOnPage page key = none := by
  unfold pageHasKey
  cases findOnPage page key <;> simp

/-- A record returned by a page scan carries exactly the target key. -/
theorem findOnPage_key (page : SnykIssuesResponse) (key : String)
    (issue : SnykIssueData) (h : findOnPage page key = some issue) :
    issue.attributes.key = key := by
  have := List.find?_some h
  simpa using this

/-- One step of the walk: a page whose scan misses but whose next link
is truthy hands over to the rest of the chain, counting one request. -/
theorem fetchCons_next (page : SnykIssuesResponse)
    (rest : List (Fetched SnykIssuesResponse)) (key : String)
    (hf : findOnPage page key = none) (hn : hasNext page = true) :
    fetchAllIssuesAndFindTarget (.ok page :: rest) key =
      ((fetchAllIssuesAndFindTarget rest key).1 + 1,
        (fetchAllIssuesAndFindTarget rest key).2) := by
  simp [fetchAllIssuesAndFindTarget, hf, hn]

/-- On a well-formed chain with no matching page, the walk performs one
request per page and ends in not-found. -/
theorem fetchTarget_notFound (key : String) :
    ∀ pages : List SnykIssuesResponse, chainWF pages = true →
      (∀ page ∈ pages, pageHasKey page key = false) →
      fetchAllIssuesAndFindTarget (pages.map .ok) key = (pages.length, .ok none) := by
  intro pages
  induction pages with
  | nil => intro h; simp [chainWF] at h
  | cons p rest ih =>
    intro hwf hall
    have hf : findOnPage p key = none :=
      (pageHasKey_false_iff p key).mp (hall p (by simp))
    cases rest with
    | nil =>
      have hn : hasNext p = false := by simpa [chainWF] using hwf
      simp [fetchAllIssuesAndFindTarget, hf, hn]
    | cons q rest' =>
      have hw : hasNext p = true ∧ chainWF (q :: rest') = true := by
        simpa [chainWF] using hwf
      have hrec := ih hw.2 (fun pg hpg => hall pg (by simp [hpg]))
      rw [List.map_cons, fetchCons_next p _ key hf hw.1, hrec]
      simp

/-- On a well-formed chain whose first match sits at index k, the walk
performs exactly k+1 requests and returns that page's first match. -/
theorem fetchTarget_found (key : String) :
    ∀ (pages : List SnykIssuesResponse) (k : Nat) (hk : k < pages.length),
      chainWF pages = true →
      (∀ (j : Nat) (hj : j < pages.length), j < k →
        pageHasKey (pages.get ⟨j, hj⟩) key = false) →
      pageHasKey (pages.get ⟨k, hk⟩) key = true →
      fetchAllIssuesAndFindTarget (pages.map .ok) key =
        (k + 1, .ok (findOnPage (pages.get ⟨k, hk⟩) key)) := by
  intro pages
  induction pages with
  | nil => intro k hk; simp at hk
  | cons p rest ih =>
    intro k hk hwf hbefore hat
    cases k with
    | zero =>
      have hat' : (findOnPage p key).isSome := by simpa [pageHasKey] using hat
      cases hfp : findOnPage p key with
      | none => rw [hfp] at hat'; simp at hat'
      | some issue => simp [fetchAllIssuesAndFindTarget, hfp]
    | succ k' =>
      have h0 : pageHasKey p key = false :=
        hbefore 0 (by simp) (Nat.succ_pos k')
      have hf : findOnPage p key = none := (pageHasKey_false_iff p key).mp h0
      cases rest with
      | nil => simp at hk
      | cons q rest' =>
        have hw : hasNext p = true ∧ chainWF (q :: rest') = true := by
          simpa [chainWF] using hwf
        have hk' : k' < (q :: rest').length := by
          simpa [Nat.succ_lt_succ_iff] using hk
        have hbefore' : ∀ (j : Nat) (hj : j < (q :: rest').length), j < k' →
            pageHasKey ((q :: rest').get ⟨j, hj⟩) key = false := by
          intro j hj hlt
          have := hbefore (j + 1) (by simpa [Nat.succ_lt_succ_iff] using hj)
            (Nat.succ_lt_succ hlt)
          simpa using this
        have hat' : pageHasKey ((q :: rest').get ⟨k', hk'⟩) key = true := by
          simpa using hat
        have hrec := ih k' hk' hw.2 hbefore' hat'
        rw [List.map_cons, fetchCons_next p _ key hf hw.1, hrec]
        simp

-- ## Claim theorems: pagination

/-- C3: a page with an absent or empty item list contributes zero
matches and is handled without failure: the walk continues into the rest
of the chain when the page carries a (truthy) next cursor, and ends the
search with not-found-so-far when it does not. -/
theorem spec_C3 (page : SnykIssuesResponse) (rest : List (Fetched SnykIssuesResponse))
    (key : String) (h : page.data = none ∨ page.data = some []) :
    (hasNext page = false →
      fetchAllIssuesAndFindTarget (.ok page :: rest) key = (1, .ok none)) ∧
    (hasNext page = true →
      fetchAllIssuesAndFindTarget (.ok page :: rest) key =
        ((fetchAllIssuesAndFindTarget rest key).1 + 1,
          (fetchAllIssuesAndFindTarget rest key).2)) := by
  have hf : findOnPage page key = none := by
    rcases h with h | h <;> simp [findOnPage, h]
  constructor <;> intro hn <;> simp [fetchAllIssuesAndFindTarget, hf, hn]

/-- Witness for C3 at concrete inputs. -/
theorem spec_C3_witness :
    fetchAllIssuesAndFindTarget [.ok ⟨none, none⟩] "k" = (1, .ok none) ∧
    fetchAllIssuesAndFindTarget [.ok ⟨some [], some ⟨some "u"⟩⟩] "k" =
      ((fetchAllIssuesAndFindTarget [] "k").1 + 1, (fetchAllIssuesAndFindTarget [] "k").2) :=
  ⟨(spec_C3 ⟨none, none⟩ [] "k" (Or.inl rfl)).1 (by decide),
   (spec_C3 ⟨some [], some ⟨some "u"⟩⟩ [] "k" (Or.inr rfl)).2 (by decide)⟩

/-- C2: over a well-formed simulated chain, if the target key first
appears on the page at 0-based index k (so on the (k+1)-st page, and on
no other page), the locator performs exactly k+1 requests and returns
that page's first record with the target key, fetching nothing after the
match; if the key appears on no page, it performs one request per page
and returns not-found. -/
theorem spec_C2 (pages : List SnykIssuesResponse) (key : String)
    (hwf : chainWF pages = true) :
    (∀ (k : Nat) (hk : k < pages.length),
      (∀ (j : Nat) (hj : j < pages.length), j ≠ k →
        pageHasKey (pages.get ⟨j, hj⟩) key = false) →
      pageHasKey (pages.get ⟨k, hk⟩) key = true →
      fetchAllIssuesAndFindTarget (pages.map .ok) key =
        (k + 1, .ok (findOnPage (pages.get ⟨k, hk⟩) key))) ∧
    ((∀ page ∈ pages, pageHasKey page key = false) →
      fetchAllIssuesAndFindTarget (pages.map .ok) key = (pages.length, .ok none)) ∧
    (∀ (page : SnykIssuesResponse) (issue : SnykIssueData),
      findOnPage page key = some issue → issue.attributes.key = key) := by
  refine ⟨fun k hk honly hat => ?_, fetchTarget_notFound key pages hwf,
    fun page issue => findOnPage_key page key issue⟩
  exact fetchTarget_found key pages k hk hwf
    (fun j hj hlt => honly j hj (Nat.ne_of_lt hlt)) hat

/-- Witness for C2: a two-page chain with the key only on the second
page, and a two-page chain without the key. -/
theorem spec_C2_witness :
    (fetchAllIssuesAndFindTarget
        [.ok ⟨some [⟨"i1", ⟨none, "OTHER"⟩⟩], some ⟨some "u2"⟩⟩,
         .ok ⟨some [⟨"i2", ⟨none, "TARGET"⟩⟩], none⟩] "TARGET" =
      (2, .ok (some ⟨"i2", ⟨none, "TARGET"⟩⟩))) ∧
    (fetchAllIssuesAndFindTarget
        [.ok ⟨some [⟨"i1", ⟨none, "OTHER"⟩⟩], some ⟨some "u2"⟩⟩,
         .ok ⟨some [], none⟩] "TARGET" = (2, .ok none)) := by
  constructor
  · exact (spec_C2 [⟨some [⟨"i1", ⟨none, "OTHER"⟩⟩], some ⟨some "u2"⟩⟩,
      ⟨some [⟨"i2", ⟨none, "TARGET"⟩⟩], none⟩] "TARGET" (by decide)).1 1 (by decide)
      (by decide) (by decide)
  · exact (spec_C2 [⟨some [⟨"i1", ⟨none, "OTHER"⟩⟩], some ⟨some "u2"⟩⟩,
      ⟨some [], none⟩] "TARGET" (by decide)).2.1 (by decide)

-- ## Claim theorems: org resolution and upstream errors

/-- C6: the organization lookup is performed exactly once (it never
paginates): when its response carries a nonempty organization list the
handler builds the issues URL from the id of the first item, and its
total request count is that one lookup plus the issue-page requests;
when the list is empty or absent the handler answers the org-not-found
404 after exactly that one request. -/
theorem spec_C6 (u s tokv : String) (net : Upstream)
    (orgSlug projectId issueId : List Char)
    (hu : u ≠ "") (htok : tokv ≠ "")
    (hsev : toLowerCase s ∈ validSeverities)
    (h1 : matchOrgSlug u.data = some orgSlug)
    (h2 : matchProjectId u.data = some projectId)
    (h3 : matchIssueId u.data = some issueId) :
    ∀ resp : SnykOrgResponse, net.orgs = .ok resp →
      ((resp.data = none ∨ resp.data = some []) →
        handler ⟨some u, some s⟩ (some tokv) net =
          ⟨⟨404, .message (orgNotFoundMessage (String.mk orgSlug))⟩, 1, none⟩) ∧
      (∀ (firstOrg : SnykOrgData) (others : List SnykOrgData),
        resp.data = some (firstOrg :: others) →
        (handler ⟨some u, some s⟩ (some tokv) net).issuesUrl =
          some (initialIssuesUrl firstOrg.id (String.mk projectId) (toLowerCase s)) ∧
        (handler ⟨some u, some s⟩ (some tokv) net).networkCalls =
          1 + (fetchAllIssuesAndFindTarget net.issues (String.mk issueId)).1) := by
  have hs : s ≠ "" := by
    rintro rfl
    simp [toLowerCase, validSeverities] at hsev
  have hstep : handler ⟨some u, some s⟩ (some tokv) net = tryBlock u s (toLowerCase s) net := by
    simp [handler, truthy, hu, hs, htok, hsev]
  intro resp hresp
  constructor
  · rintro (hd | hd) <;> simp [hstep, tryBlock, h1, h2, h3, hresp, hd]
  · intro firstOrg others hd
    rcases hfetch : fetchAllIssuesAndFindTarget net.issues (String.mk issueId) with ⟨n, r⟩
    cases r with
    | error e => simp [hstep, tryBlock, h1, h2, h3, hresp, hd, hfetch]
    | ok o => cases o <;> simp [hstep, tryBlock, h1, h2, h3, hresp, hd, hfetch]

/-- Witness for C6 on a concrete URL, both for an empty and for a
nonempty organization list. -/
theorem spec_C6_witness :
    handler ⟨some "/org/acme/project/abc123#issue-KEY-1", some "high"⟩ (some "t")
        ⟨.ok ⟨some []⟩, []⟩ =
      ⟨⟨404, .message (orgNotFoundMessage (String.mk "acme".data))⟩, 1, none⟩ ∧
    (handler ⟨some "/org/acme/project/abc123#issue-KEY-1", some "high"⟩ (some "t")
        ⟨.ok ⟨some [⟨"org-9"⟩]⟩, []⟩).issuesUrl =
      some (initialIssuesUrl "org-9" (String.mk "abc123".data) (toLowerCase "high")) ∧
    (handler ⟨some "/org/acme/project/abc123#issue-KEY-1", some "high"⟩ (some "t")
        ⟨.ok ⟨some [⟨"org-9"⟩]⟩, []⟩).networkCalls =
      1 + (fetchAllIssuesAndFindTarget [] (String.mk "KEY-1".data)).1 := by
  refine ⟨(spec_C6 "/org/acme/project/abc123#issue-KEY-1" "high" "t" ⟨.ok ⟨some []⟩, []⟩
      "acme".data "abc123".data "KEY-1".data (by decide) (by decide) (by decide)
      (by decide) (by decide) (by decide) ⟨some []⟩ rfl).1 (Or.inr rfl), ?_⟩
  exact (spec_C6 "/org/acme/project/abc123#issue-KEY-1" "high" "t"
      ⟨.ok ⟨some [⟨"org-9"⟩]⟩, []⟩ "acme".data "abc123".data "KEY-1".data
      (by decide) (by decide) (by decide) (by decide) (by decide) (by decide)
      ⟨some [⟨"org-9"⟩]⟩ rfl).2 ⟨"org-9"⟩ [] rfl

/-- C8: when an upstream call fails, the response status is the
upstream's reported status code when one is available (an HTTP status is
a nonzero number; the JavaScript fallback `|| 500` treats the
unrealizable 0 like an absent status) and 500 otherwise, and the
response message contains the first structured detail text of the
upstream error body whenever one was supplied; both error paths of the
handler (the org lookup and an issue-page fetch) produce exactly this
catch-block response. -/
theorem spec_C8 :
    (∀ e : AxiosErrorInfo,
      (∀ st : Nat, e.responseStatus = some st → st ≠ 0 → (axiosCatch e).statusCode = st) ∧
      (e.responseStatus = none → (axiosCatch e).statusCode = 500) ∧
      (∀ (first : SnykErrorItem) (others : List SnykErrorItem) (d : String),
        e.responseErrors = some (first :: others) → first.detail = some d →
        ∃ x y : String, (axiosCatch e).body = .message (x ++ d ++ y))) ∧
    (∀ (u s tokv : String) (net : Upstream) (orgSlug projectId issueId : List Char)
      (e : AxiosErrorInfo), u ≠ "" → tokv ≠ "" → toLowerCase s ∈ validSeverities →
      matchOrgSlug u.data = some orgSlug → matchProjectId u.data = some projectId →
      matchIssueId u.data = some issueId →
      (net.orgs = .err e →
        (handler ⟨some u, some s⟩ (some tokv) net).response = axiosCatch e) ∧
      (∀ (resp : SnykOrgResponse) (firstOrg : SnykOrgData) (others : List SnykOrgData) (n : Nat),
        net.orgs = .ok resp → resp.data = some (firstOrg :: others) →
        fetchAllIssuesAndFindTarget net.issues (String.mk issueId) = (n, .error e) →
        (handler ⟨some u, some s⟩ (some tokv) net).response = axiosCatch e)) := by
  constructor
  · intro e
    refine ⟨fun st h hne => by simp [axiosCatch, h, hne], fun h => by simp [axiosCatch, h], ?_⟩
    intro first others d h1 h2
    by_cases hd : d = ""
    · exact ⟨"Snyk API request failed: " ++ e.message, "",
        by simp [axiosCatch, h1, h2, hd]⟩
    · refine ⟨"Snyk API request failed: " ++ e.message ++ " Details: ", "", ?_⟩
      simp [axiosCatch, h1, h2, hd, String.append_assoc]
  · intro u s tokv net orgSlug projectId issueId e hu htok hsev h1 h2 h3
    have hs : s ≠ "" := by
      rintro rfl
      simp [toLowerCase, validSeverities] at hsev
    have hstep : handler ⟨some u, some s⟩ (some tokv) net =
        tryBlock u s (toLowerCase s) net := by
      simp [handler, truthy, hu, hs, htok, hsev]
    constructor
    · intro herr
      simp [hstep, tryBlock, h1, h2, h3, herr]
    · intro resp firstOrg others n hresp hd hfetch
      simp [hstep, tryBlock, h1, h2, h3, hresp, hd, hfetch]

/-- Witness for C8: a failing org lookup with status 502 and a detail
text, checked against the catch-block response. -/
theorem spec_C8_witness :
    (axiosCatch ⟨"boom", some 502, some [⟨some "rate limited"⟩]⟩).statusCode = 502 ∧
    (axiosCatch ⟨"boom", none, none⟩).statusCode = 500 ∧
    (∃ x y : String, (axiosCatch ⟨"boom", some 502, some [⟨some "rate limited"⟩]⟩).body =
      .message (x ++ "rate limited" ++ y)) ∧
    (handler ⟨some "/org/acme/project/abc123#issue-KEY-1", some "high"⟩ (some "t")
        ⟨.err ⟨"boom", some 502, some [⟨some "rate limited"⟩]⟩, []⟩).response =
      axiosCatch ⟨"boom", some 502, some [⟨some "rate limited"⟩]⟩ :=
  ⟨(spec_C8.1 ⟨"boom", some 502, some [⟨some "rate limited"⟩]⟩).1 502 rfl (by decide),
   (spec_C8.1 ⟨"boom", none, none⟩).2.1 rfl,
   (spec_C8.1 ⟨"boom", some 502, some [⟨some "rate limited"⟩]⟩).2.2 ⟨some "rate limited"⟩
     [] "rate limited" rfl rfl,
   (spec_C8.2 "/org/acme/project/abc123#issue-KEY-1" "high" "t"
       ⟨.err ⟨"boom", some 502, some [⟨some "rate limited"⟩]⟩, []⟩
       "acme".data "abc123".data "KEY-1".data ⟨"boom", some 502, some [⟨some "rate limited"⟩]⟩
       (by decide) (by decide) (by decide) (by decide) (by decide) (by decide)).1 rfl⟩

-- ## Scanner lemmas (first-match regex semantics)

/-- A successful scan is witnessed by a successful attempt at some
suffix (i.e. some start position). -/
theorem scanFirst_eq_some (f : List Char → Option (List Char)) :
    ∀ (s a : List Char), scanFirst f s = some a → ∃ t, t <:+ s ∧ f t = some a := by
  intro s
  induction s with
  | nil =>
    intro a h
    exact ⟨[], List.suffix_refl [], by simpa [scanFirst] using h⟩
  | cons c cs ih =>
    intro a h
    cases hf : f (c :: cs) with
    | some r =>
      simp only [scanFirst, hf] at h
      exact ⟨c :: cs, List.suffix_refl _, hf.trans h⟩
    | none =>
      simp only [scanFirst, hf] at h
      obtain ⟨t, ht, hft⟩ := ih a h
      exact ⟨t, ht.trans (List.suffix_cons c cs), hft⟩

/-- The scan succeeds exactly when the attempt succeeds at some suffix. -/
theorem scanFirst_isSome_iff (f : List Char → Option (List Char)) :
    ∀ s : List Char, (scanFirst f s).isSome ↔ ∃ t, t <:+ s ∧ (f t).isSome := by
  intro s
  induction s with
  | nil =>
    constructor
    · intro h
      exact ⟨[], List.suffix_refl [], by simpa [scanFirst] using h⟩
    · rintro ⟨t, ht, hft⟩
      rw [List.suffix_nil] at ht
      subst ht
      simpa [scanFirst] using hft
  | cons c cs ih =>
    constructor
    · intro h
      cases hf : f (c :: cs) with
      | some r => exact ⟨c :: cs, List.suffix_refl _, by rw [hf]; rfl⟩
      | none =>
        simp only [scanFirst, hf] at h
        obtain ⟨t, ht, hft⟩ := ih.mp h
        exact ⟨t, ht.trans (List.suffix_cons c cs), hft⟩
    · rintro ⟨t, ht, hft⟩
      cases hf : f (c :: cs) with
      | some r => simp [scanFirst, hf]
      | none =>
        simp only [scanFirst, hf]
        rcases List.suffix_cons_iff.mp ht with h | h
        · subst h
          rw [hf] at hft
          simp at hft
        · exact ih.mpr ⟨t, h, hft⟩

/-- The scan fails exactly when the attempt fails at every suffix. -/
theorem scanFirst_eq_none_iff (f : List Char → Option (List Char)) (s : List Char) :
    scanFirst f s = none ↔ ∀ t, t <:+ s → f t = none := by
  rw [← Option.not_isSome_iff_eq_none, scanFirst_isSome_iff]
  push_neg
  constructor
  · intro h t ht
    have := h t ht
    simpa [Option.not_isSome_iff_eq_none] using this
  · intro h t ht
    simp [h t ht]

-- ## takeWhile and drop helpers

/-- Dropping the length of the takeWhile run is dropWhile. -/
theorem drop_takeWhile_length (p : Char → Bool) :
    ∀ l : List Char, l.drop (l.takeWhile p).length = l.dropWhile p := by
  intro l
  induction l with
  | nil => rfl
  | cons x xs ih =>
    cases hpx : p x with
    | true => simpa [List.takeWhile, List.dropWhile, hpx] using ih
    | false => simp [List.takeWhile, List.dropWhile, hpx]

/-- takeWhile over a run that fully satisfies the predicate followed by
a block that immediately violates it returns exactly the run. -/
theorem takeWhile_run (p : Char → Bool) :
    ∀ (a b : List Char), (∀ c ∈ a, p c = true) →
      (b = [] ∨ ∃ d b', b = d :: b' ∧ p d = false) →
      (a ++ b).takeWhile p = a := by
  intro a
  induction a with
  | nil =>
    intro b _ hb
    rcases hb with rfl | ⟨d, b', rfl, hd⟩
    · rfl
    · simp [List.takeWhile, hd]
  | cons x a' ih =>
    intro b ha hb
    have hx : p x = true := ha x (by simp)
    have hrec := ih b (fun c hc => ha c (by simp [hc])) hb
    simp only [List.cons_append, List.takeWhile, hx, List.append_eq]
    simp only [List.append_eq] at hrec
    rw [hrec]

-- ## Characterizations of the three pattern attempts

/-- The org attempt succeeds at a position exactly on a nonempty
slash-free segment wedged between the two literals. -/
theorem tryOrgAt_eq_some_iff (t a : List Char) :
    tryOrgAt t = some a ↔
      a ≠ [] ∧ (∀ c ∈ a, c ≠ '/') ∧ ∃ r, t = litOrg ++ a ++ litProject ++ r := by
  constructor
  · intro h
    by_cases hp : litOrg.isPrefixOf t = true
    · obtain ⟨rest, hrest⟩ := List.isPrefixOf_iff_prefix.mp hp
      subst hrest
      rw [tryOrgAt, if_pos hp] at h
      simp only [List.drop_left] at h
      by_cases he : (rest.takeWhile fun c => c != '/').isEmpty = true
      · rw [if_pos he] at h
        simp at h
      · rw [if_neg he] at h
        by_cases hpp :
            litProject.isPrefixOf (rest.drop (rest.takeWhile fun c => c != '/').length) = true
        · rw [if_pos hpp] at h
          obtain rfl : (rest.takeWhile fun c => c != '/') = a := by
            simpa using h
          refine ⟨?_, ?_, ?_⟩
          · intro hnil
            rw [hnil] at he
            simp at he
          · intro c hc
            have := List.mem_takeWhile_imp hc
            simpa using this
          · obtain ⟨r, hr⟩ := List.isPrefixOf_iff_prefix.mp hpp
            rw [drop_takeWhile_length] at hr
            exact ⟨r, by rw [List.append_assoc, List.append_assoc, hr, List.takeWhile_append_dropWhile]⟩
        · rw [if_neg hpp] at h
          exact absurd h (by simp)
    · rw [tryOrgAt, if_neg hp] at h
      exact absurd h (by simp)
  · rintro ⟨ha, hs, r, rfl⟩
    have hp : litOrg.isPrefixOf (litOrg ++ a ++ litProject ++ r) = true :=
      List.isPrefixOf_iff_prefix.mpr ⟨a ++ (litProject ++ r), by simp [List.append_assoc]⟩
    have htw : ((a ++ (litProject ++ r)).takeWhile fun c => c != '/') = a :=
      takeWhile_run _ a (litProject ++ r)
        (fun c hc => by simpa using hs c hc)
        (Or.inr ⟨'/', ('p' :: 'r' :: 'o' :: 'j' :: 'e' :: 'c' :: 't' :: '/' :: []) ++ r, rfl, by simp⟩)
    have he : a.isEmpty = false := by
      cases a
      · exact absurd rfl ha
      · rfl
    rw [tryOrgAt, if_pos hp]
    simp only [List.append_assoc, List.drop_left]
    rw [htw]
    rw [if_neg (by simp [he])]
    rw [List.drop_left]
    rw [if_pos (List.isPrefixOf_iff_prefix.mpr (List.prefix_append litProject r))]

/-- The head of a nonempty dropWhile residue violates the predicate. -/
theorem dropWhile_head_false (p : Char → Bool) :
    ∀ (l : List Char) (d : Char) (r : List Char), l.dropWhile p = d :: r → p d = false := by
  intro l
  induction l with
  | nil => intro d r h; simp [List.dropWhile] at h
  | cons x xs ih =>
    intro d r h
    cases hpx : p x with
    | true =>
      simp only [List.dropWhile, hpx] at h
      exact ih d r h
    | false =>
      simp only [List.dropWhile, hpx, List.cons.injEq] at h
      rw [← h.1]
      exact hpx

/-- The project attempt succeeds at a position exactly on a nonempty
class run after the literal, ended by the fragment marker or the end. -/
theorem tryProjectAt_eq_some_iff (t b : List Char) :
    tryProjectAt t = some b ↔
      b ≠ [] ∧ (∀ c ∈ b, projectIdChar c = true) ∧
        (t = litProject ++ b ∨ ∃ r, t = litProject ++ b ++ '#' :: r) := by
  constructor
  · intro h
    by_cases hp : litProject.isPrefixOf t = true
    · obtain ⟨rest, hrest⟩ := List.isPrefixOf_iff_prefix.mp hp
      subst hrest
      rw [tryProjectAt, if_pos hp] at h
      simp only [List.drop_left] at h
      by_cases he : (rest.takeWhile projectIdChar).isEmpty = true
      · rw [if_pos he] at h
        simp at h
      · rw [if_neg he] at h
        have hsplit := List.takeWhile_append_dropWhile projectIdChar rest
        cases hdrop : rest.drop (rest.takeWhile projectIdChar).length with
        | nil =>
          rw [hdrop] at h
          obtain rfl : rest.takeWhile projectIdChar = b := by simpa using h
          rw [drop_takeWhile_length] at hdrop
          refine ⟨?_, fun c hc => List.mem_takeWhile_imp hc, Or.inl ?_⟩
          · intro hnil
            rw [hnil] at he
            simp at he
          · rw [hdrop, List.append_nil] at hsplit
            rw [hsplit]
        | cons c tail =>
          rw [hdrop] at h
          by_cases hc : (c == '#') = true
          · obtain rfl : rest.takeWhile projectIdChar = b := by simpa [hc] using h
            obtain rfl : c = '#' := by simpa using hc
            rw [drop_takeWhile_length] at hdrop
            refine ⟨?_, fun c hc => List.mem_takeWhile_imp hc, Or.inr ⟨tail, ?_⟩⟩
            · intro hnil
              rw [hnil] at he
              simp at he
            · rw [List.append_assoc, ← hdrop, hsplit]
          · exact absurd h (by simp [hc])
    · rw [tryProjectAt, if_neg hp] at h
      exact absurd h (by simp)
  · rintro ⟨hb, hclass, hshape⟩
    have he : b.isEmpty = false := by
      cases b
      · exact absurd rfl hb
      · rfl
    rcases hshape with rfl | ⟨r, rfl⟩
    · have hp : litProject.isPrefixOf (litProject ++ b) = true :=
        List.isPrefixOf_iff_prefix.mpr ⟨b, rfl⟩
      have htw : b.takeWhile projectIdChar = b := by
        have := takeWhile_run projectIdChar b [] hclass (Or.inl rfl)
        rwa [List.append_nil] at this
      rw [tryProjectAt, if_pos hp]
      simp only [List.drop_left]
      rw [htw]
      rw [if_neg (by simp [he])]
      rw [List.drop_length]
    · have hp : litProject.isPrefixOf (litProject ++ b ++ '#' :: r) = true :=
        List.isPrefixOf_iff_prefix.mpr ⟨b ++ '#' :: r, by simp [List.append_assoc]⟩
      have htw : (b ++ '#' :: r).takeWhile projectIdChar = b :=
        takeWhile_run projectIdChar b ('#' :: r) hclass (Or.inr ⟨'#', r, rfl, by decide⟩)
      rw [tryProjectAt, if_pos hp]
      simp only [List.append_assoc, List.drop_left]
      rw [htw]
      rw [if_neg (by simp [he])]
      rw [List.drop_left]
      simp

/-- The issue attempt succeeds at a position exactly on the maximal
nonempty run of non-line-terminator characters after the literal. -/
theorem tryIssueAt_eq_some_iff (t k : List Char) :
    tryIssueAt t = some k ↔
      k ≠ [] ∧ (∀ c ∈ k, jsDot c = true) ∧
        (t = litIssue ++ k ∨ ∃ d r, t = litIssue ++ k ++ d :: r ∧ jsDot d = false) := by
  constructor
  · intro h
    by_cases hp : litIssue.isPrefixOf t = true
    · obtain ⟨rest, hrest⟩ := List.isPrefixOf_iff_prefix.mp hp
      subst hrest
      rw [tryIssueAt, if_pos hp] at h
      simp only [List.drop_left] at h
      by_cases he : (rest.takeWhile jsDot).isEmpty = true
      · rw [if_pos he] at h
        simp at h
      · rw [if_neg he] at h
        obtain rfl : rest.takeWhile jsDot = k := by simpa using h
        have hsplit := List.takeWhile_append_dropWhile jsDot rest
        refine ⟨?_, fun c hc => List.mem_takeWhile_imp hc, ?_⟩
        · intro hnil
          rw [hnil] at he
          simp at he
        · cases hdw : rest.dropWhile jsDot with
          | nil =>
            refine Or.inl ?_
            rw [hdw, List.append_nil] at hsplit
            rw [hsplit]
          | cons d tail =>
            refine Or.inr ⟨d, tail, ?_, dropWhile_head_false jsDot rest d tail hdw⟩
            rw [List.append_assoc, ← hdw, hsplit]
    · rw [tryIssueAt, if_neg hp] at h
      exact absurd h (by simp)
  · rintro ⟨hk, hclass, hshape⟩
    have he : k.isEmpty = false := by
      cases k
      · exact absurd rfl hk
      · rfl
    rcases hshape with rfl | ⟨d, r, rfl, hd⟩
    · have hp : litIssue.isPrefixOf (litIssue ++ k) = true :=
        List.isPrefixOf_iff_prefix.mpr ⟨k, rfl⟩
      have htw : k.takeWhile jsDot = k := by
        have := takeWhile_run jsDot k [] hclass (Or.inl rfl)
        rwa [List.append_nil] at this
      rw [tryIssueAt, if_pos hp]
      simp only [List.drop_left]
      rw [htw]
      rw [if_neg (by simp [he])]
    · have hp : litIssue.isPrefixOf (litIssue ++ k ++ d :: r) = true :=
        List.isPrefixOf_iff_prefix.mpr ⟨k ++ d :: r, by simp [List.append_assoc]⟩
      have htw : (k ++ d :: r).takeWhile jsDot = k :=
        takeWhile_run jsDot k (d :: r) hclass (Or.inr ⟨d, r, rfl, hd⟩)
      rw [tryIssueAt, if_pos hp]
      simp only [List.append_assoc, List.drop_left]
      rw [htw]
      rw [if_neg (by simp [he])]

-- ## Matcher-level characterizations

/-- A successful org-slug match yields a nonempty slash-free segment
between the two literals somewhere in the string. -/
theorem matchOrgSlug_eq_some (s a : List Char) (h : matchOrgSlug s = some a) :
    a ≠ [] ∧ (∀ c ∈ a, c ≠ '/') ∧ ∃ pre r, s = pre ++ litOrg ++ a ++ litProject ++ r := by
  obtain ⟨t, ⟨pre, rfl⟩, hft⟩ := scanFirst_eq_some tryOrgAt s a h
  obtain ⟨ha, hsl, r, rfl⟩ := (tryOrgAt_eq_some_iff t a).mp hft
  exact ⟨ha, hsl, pre, r, by simp [List.append_assoc]⟩

/-- The org-slug match succeeds exactly on strings containing the
pattern. -/
theorem matchOrgSlug_isSome_iff (s : List Char) :
    (matchOrgSlug s).isSome ↔
      ∃ pre a r, a ≠ [] ∧ (∀ c ∈ a, c ≠ '/') ∧ s = pre ++ litOrg ++ a ++ litProject ++ r := by
  rw [matchOrgSlug, scanFirst_isSome_iff]
  constructor
  · rintro ⟨t, ⟨pre, rfl⟩, hft⟩
    obtain ⟨a, hfa⟩ := Option.isSome_iff_exists.mp hft
    obtain ⟨ha, hsl, r, rfl⟩ := (tryOrgAt_eq_some_iff t a).mp hfa
    exact ⟨pre, a, r, ha, hsl, by simp [List.append_assoc]⟩
  · rintro ⟨pre, a, r, ha, hsl, hshape⟩
    refine ⟨litOrg ++ a ++ litProject ++ r, ⟨pre, by rw [hshape]; simp [List.append_assoc]⟩, ?_⟩
    rw [(tryOrgAt_eq_some_iff _ a).mpr ⟨ha, hsl, r, rfl⟩]
    rfl

/-- A successful project-id match yields a nonempty class run after the
literal, ended by the fragment marker or the end of the string. -/
theorem matchProjectId_eq_some (s b : List Char) (h : matchProjectId s = some b) :
    b ≠ [] ∧ (∀ c ∈ b, projectIdChar c = true) ∧
      ∃ pre, s = pre ++ litProject ++ b ∨ ∃ r, s = pre ++ litProject ++ b ++ '#' :: r := by
  obtain ⟨t, ⟨pre, rfl⟩, hft⟩ := scanFirst_eq_some tryProjectAt s b h
  obtain ⟨hb, hcl, hshape⟩ := (tryProjectAt_eq_some_iff t b).mp hft
  refine ⟨hb, hcl, pre, ?_⟩
  rcases hshape with rfl | ⟨r, rfl⟩
  · exact Or.inl (by simp [List.append_assoc])
  · exact Or.inr ⟨r, by simp [List.append_assoc]⟩

/-- The project-id match succeeds exactly on strings containing the
pattern. -/
theorem matchProjectId_isSome_iff (s : List Char) :
    (matchProjectId s).isSome ↔
      ∃ pre b, b ≠ [] ∧ (∀ c ∈ b, projectIdChar c = true) ∧
        (s = pre ++ litProject ++ b ∨ ∃ r, s = pre ++ litProject ++ b ++ '#' :: r) := by
  rw [matchProjectId, scanFirst_isSome_iff]
  constructor
  · rintro ⟨t, ⟨pre, rfl⟩, hft⟩
    obtain ⟨b, hfb⟩ := Option.isSome_iff_exists.mp hft
    obtain ⟨hb, hcl, hshape⟩ := (tryProjectAt_eq_some_iff t b).mp hfb
    refine ⟨pre, b, hb, hcl, ?_⟩
    rcases hshape with rfl | ⟨r, rfl⟩
    · exact Or.inl (by simp [List.append_assoc])
    · exact Or.inr ⟨r, by simp [List.append_assoc]⟩
  · rintro ⟨pre, b, hb, hcl, hshape⟩
    rcases hshape with rfl | ⟨r, rfl⟩
    · refine ⟨litProject ++ b, ⟨pre, by simp [List.append_assoc]⟩, ?_⟩
      rw [(tryProjectAt_eq_some_iff _ b).mpr ⟨hb, hcl, Or.inl rfl⟩]
      rfl
    · refine ⟨litProject ++ b ++ '#' :: r, ⟨pre, by simp [List.append_assoc]⟩, ?_⟩
      rw [(tryProjectAt_eq_some_iff _ b).mpr ⟨hb, hcl, Or.inr ⟨r, rfl⟩⟩]
      rfl

/-- A successful issue-key match yields the nonempty maximal run of
non-line-terminator characters after the literal. -/
theorem matchIssueId_eq_some (s k : List Char) (h : matchIssueId s = some k) :
    k ≠ [] ∧ (∀ c ∈ k, jsDot c = true) ∧
      ∃ pre, s = pre ++ litIssue ++ k ∨
        ∃ d r, s = pre ++ litIssue ++ k ++ d :: r ∧ jsDot d = false := by
  obtain ⟨t, ⟨pre, rfl⟩, hft⟩ := scanFirst_eq_some tryIssueAt s k h
  obtain ⟨hk, hcl, hshape⟩ := (tryIssueAt_eq_some_iff t k).mp hft
  refine ⟨hk, hcl, pre, ?_⟩
  rcases hshape with rfl | ⟨d, r, rfl, hd⟩
  · exact Or.inl (by simp [List.append_assoc])
  · exact Or.inr ⟨d, r, by simp [List.append_assoc], hd⟩

/-- The issue-key match succeeds exactly on strings containing the
pattern. -/
theorem matchIssueId_isSome_iff (s : List Char) :
    (matchIssueId s).isSome ↔
      ∃ pre k, k ≠ [] ∧ (∀ c ∈ k, jsDot c = true) ∧
        (s = pre ++ litIssue ++ k ∨
          ∃ d r, s = pre ++ litIssue ++ k ++ d :: r ∧ jsDot d = false) := by
  rw [matchIssueId, scanFirst_isSome_iff]
  constructor
  · rintro ⟨t, ⟨pre, rfl⟩, hft⟩
    obtain ⟨k, hfk⟩ := Option.isSome_iff_exists.mp hft
    obtain ⟨hk, hcl, hshape⟩ := (tryIssueAt_eq_some_iff t k).mp hfk
    refine ⟨pre, k, hk, hcl, ?_⟩
    rcases hshape with rfl | ⟨d, r, rfl, hd⟩
    · exact Or.inl (by simp [List.append_assoc])
    · exact Or.inr ⟨d, r, by simp [List.append_assoc], hd⟩
  · rintro ⟨pre, k, hk, hcl, hshape⟩
    rcases hshape with rfl | ⟨d, r, rfl, hd⟩
    · refine ⟨litIssue ++ k, ⟨pre, by simp [List.append_assoc]⟩, ?_⟩
      rw [(tryIssueAt_eq_some_iff _ k).mpr ⟨hk, hcl, Or.inl rfl⟩]
      rfl
    · refine ⟨litIssue ++ k ++ d :: r, ⟨pre, by simp [List.append_assoc]⟩, ?_⟩
      rw [(tryIssueAt_eq_some_iff _ k).mpr ⟨hk, hcl, Or.inr ⟨d, r, rfl, hd⟩⟩]
      rfl

/-- The all-or-nothing decomposition succeeds exactly when all three
matches succeed. -/
theorem decompose_isSome_iff (url : String) :
    (decompose url).isSome ↔
      (matchOrgSlug url.data).isSome ∧ (matchProjectId url.data).isSome ∧
        (matchIssueId url.data).isSome := by
  cases h1 : matchOrgSlug url.data <;> cases h2 : matchProjectId url.data <;>
    cases h3 : matchIssueId url.data <;> simp [decompose, h1, h2, h3]

/-- If the (unique) occurrence of the project literal is followed by a
segment that contains a character outside the class before the fragment
marker, the project-id match fails on the whole string. -/
theorem matchProjectId_eq_none_of_bad (s pre seg post : List Char)
    (hurl : s = pre ++ litProject ++ seg ++ '#' :: post)
    (huniq : ∀ i : Nat, i ≤ s.length →
      litProject.isPrefixOf (s.drop i) = true → i = pre.length)
    (hhash : '#' ∉ seg) (hbad : ∃ c ∈ seg, projectIdChar c = false) :
    matchProjectId s = none := by
  rw [← Option.not_isSome_iff_eq_none, matchProjectId_isSome_iff]
  rintro ⟨pre', b, hb, hcl, hshape⟩
  have hchash : projectIdChar '#' = false := by decide
  subst hurl
  simp only [List.append_assoc] at hshape huniq
  have hbadcl : b ≠ seg := by
    intro hbs
    obtain ⟨c, hcs, hcbad⟩ := hbad
    have := hcl c (by rw [hbs]; exact hcs)
    rw [hcbad] at this
    exact Bool.false_ne_true this
  rcases hshape with h1 | ⟨r, h1⟩
  · have hle : pre'.length ≤ (pre ++ (litProject ++ (seg ++ '#' :: post))).length := by
      rw [h1]
      simp
    have hpp : pre'.length = pre.length := by
      refine huniq pre'.length (by simpa using hle) ?_
      rw [h1, List.drop_left]
      exact List.isPrefixOf_iff_prefix.mpr (List.prefix_append _ _)
    obtain ⟨hpe, htl⟩ := List.append_inj h1.symm (by rw [hpp])
    have htail : b = seg ++ '#' :: post := List.append_cancel_left htl
    have := hcl '#' (by rw [htail]; exact List.mem_append_right _ (List.mem_cons_self '#' post))
    rw [hchash] at this
    exact Bool.false_ne_true this
  · have hle : pre'.length ≤ (pre ++ (litProject ++ (seg ++ '#' :: post))).length := by
      rw [h1]
      simp
    have hpp : pre'.length = pre.length := by
      refine huniq pre'.length (by simpa using hle) ?_
      rw [h1, List.drop_left]
      exact List.isPrefixOf_iff_prefix.mpr (List.prefix_append _ _)
    obtain ⟨hpe, htl⟩ := List.append_inj h1.symm (by rw [hpp])
    have htail : b ++ '#' :: r = seg ++ '#' :: post := List.append_cancel_left htl
    rcases List.append_eq_append_iff.mp htail with ⟨a', ha1, ha2⟩ | ⟨c', hc1, hc2⟩
    · cases a' with
      | nil =>
        rw [List.append_nil] at ha1
        exact hbadcl ha1.symm
      | cons x a'' =>
        have hx : x = '#' := by
          have := ha2
          simp only [List.cons_append, List.cons.injEq] at this
          exact this.1.symm
        apply hhash
        rw [ha1, hx]
        exact List.mem_append_right _ (List.mem_cons_self '#' a'')
      
    · cases c' with
      | nil =>
        rw [List.append_nil] at hc1
        exact hbadcl hc1
      | cons x c'' =>
        have hx : x = '#' := by
          have := hc2
          simp only [List.cons_append, List.cons.injEq] at this
          exact this.1.symm
        have : projectIdChar '#' = true := by
          refine hcl '#' ?_
          rw [hc1, hx]
          exact List.mem_append_right _ (List.mem_cons_self '#' c'')
        rw [hchash] at this
        exact Bool.false_ne_true this

-- ## Claim theorems: URL decomposition

/-- C4: decomposition is all-or-nothing. It succeeds exactly when all
three patterns occur in the URL; a success yields exactly pattern
substrings, none of them empty; when any extraction fails the handler
answers the single aggregate 400 with no network call and no partial
result. -/
theorem spec_C4 (url : String) :
    ((decompose url).isSome ↔
      ((∃ pre a r, a ≠ [] ∧ (∀ c ∈ a, c ≠ '/') ∧
          url.data = pre ++ litOrg ++ a ++ litProject ++ r) ∧
        (∃ pre b, b ≠ [] ∧ (∀ c ∈ b, projectIdChar c = true) ∧
          (url.data = pre ++ litProject ++ b ∨
            ∃ r, url.data = pre ++ litProject ++ b ++ '#' :: r)) ∧
        (∃ pre k, k ≠ [] ∧ (∀ c ∈ k, jsDot c = true) ∧
          (url.data = pre ++ litIssue ++ k ∨
            ∃ d r, url.data = pre ++ litIssue ++ k ++ d :: r ∧ jsDot d = false)))) ∧
    (∀ a b c : String, decompose url = some (a, b, c) →
      (a ≠ "" ∧ (∀ ch ∈ a.data, ch ≠ '/') ∧
        ∃ pre r, url.data = pre ++ litOrg ++ a.data ++ litProject ++ r) ∧
      (b ≠ "" ∧ (∀ ch ∈ b.data, projectIdChar ch = true) ∧
        ∃ pre, url.data = pre ++ litProject ++ b.data ∨
          ∃ r, url.data = pre ++ litProject ++ b.data ++ '#' :: r) ∧
      (c ≠ "" ∧ (∀ ch ∈ c.data, jsDot ch = true) ∧
        ∃ pre, url.data = pre ++ litIssue ++ c.data ∨
          ∃ d r, url.data = pre ++ litIssue ++ c.data ++ d :: r ∧ jsDot d = false)) ∧
    (decompose url = none → url ≠ "" → ∀ (sv tokv : String) (net : Upstream),
      tokv ≠ "" → toLowerCase sv ∈ validSeverities →
      handler ⟨some url, some sv⟩ (some tokv) net =
        ⟨⟨400, .message invalidUrlMessage⟩, 0, none⟩) := by
  refine ⟨?_, ?_, ?_⟩
  · rw [decompose_isSome_iff, matchOrgSlug_isSome_iff, matchProjectId_isSome_iff,
      matchIssueId_isSome_iff]
  · intro a b c h
    cases h1 : matchOrgSlug url.data with
    | none => rw [decompose, h1] at h; simp at h
    | some la =>
      cases h2 : matchProjectId url.data with
      | none => rw [decompose, h1, h2] at h; simp at h
      | some lb =>
        cases h3 : matchIssueId url.data with
        | none => rw [decompose, h1, h2, h3] at h; simp at h
        | some lc =>
          rw [decompose, h1, h2, h3] at h
          simp only [Option.some.injEq, Prod.mk.injEq] at h
          obtain ⟨rfl, rfl, rfl⟩ := h
          obtain ⟨ha, hsl, hsh1⟩ := matchOrgSlug_eq_some url.data la h1
          obtain ⟨hbne, hcl2, hsh2⟩ := matchProjectId_eq_some url.data lb h2
          obtain ⟨hkne, hcl3, hsh3⟩ := matchIssueId_eq_some url.data lc h3
          refine ⟨⟨?_, hsl, hsh1⟩, ⟨?_, hcl2, hsh2⟩, ⟨?_, hcl3, hsh3⟩⟩
          · intro hmk
            exact ha (by simpa using congrArg String.data hmk)
          · intro hmk
            exact hbne (by simpa using congrArg String.data hmk)
          · intro hmk
            exact hkne (by simpa using congrArg String.data hmk)
  · intro hnone hu sv tokv net htok hsev
    have hs : sv ≠ "" := by
      rintro rfl
      simp [toLowerCase, validSeverities] at hsev
    have hstep : handler ⟨some url, some sv⟩ (some tokv) net =
        tryBlock url sv (toLowerCase sv) net := by
      simp [handler, truthy, hu, hs, htok, hsev]
    cases h1 : matchOrgSlug url.data with
    | none =>
      cases h2 : matchProjectId url.data <;> cases h3 : matchIssueId url.data <;>
        simp [hstep, tryBlock, h1, h2, h3]
    | some la =>
      cases h2 : matchProjectId url.data with
      | none =>
        cases h3 : matchIssueId url.data <;> simp [hstep, tryBlock, h1, h2, h3]
      | some lb =>
        cases h3 : matchIssueId url.data with
        | none => simp [hstep, tryBlock, h1, h2, h3]
        | some lc => rw [decompose, h1, h2, h3] at hnone; simp at hnone

/-- Witness for C4: a URL on which all three extractions succeed, and
one on which they fail. -/
theorem spec_C4_witness :
    decompose "/org/x/project/1a#issue-Z" = some ("x", "1a", "Z") ∧
    ("x" : String) ≠ "" ∧
    handler ⟨some "nope", some "low"⟩ (some "t") ⟨.ok ⟨none⟩, []⟩ =
      ⟨⟨400, .message invalidUrlMessage⟩, 0, none⟩ := by
  refine ⟨by decide,
    ((spec_C4 "/org/x/project/1a#issue-Z").2.1 "x" "1a" "Z" (by decide)).1.1, ?_⟩
  exact (spec_C4 "nope").2.2 (by decide) (by decide) "low" "t" ⟨.ok ⟨none⟩, []⟩
    (by decide) (by decide)

/-- C10: the project-id extraction accepts only `[a-f0-9-]` characters
(in particular no uppercase hex), and on a URL whose unique project
segment before the fragment marker contains a character outside that
class the extraction fails and the handler answers the aggregate 400. -/
theorem spec_C10 :
    (∀ (s b : List Char), matchProjectId s = some b → ∀ c ∈ b, projectIdChar c = true) ∧
    (∀ (url : String) (pre seg post : List Char),
      url.data = pre ++ litProject ++ seg ++ '#' :: post →
      (∀ i : Nat, i ≤ url.data.length →
        litProject.isPrefixOf (url.data.drop i) = true → i = pre.length) →
      '#' ∉ seg → (∃ c ∈ seg, projectIdChar c = false) →
      matchProjectId url.data = none ∧
      ∀ (sv tokv : String) (net : Upstream), tokv ≠ "" → toLowerCase sv ∈ validSeverities →
        handler ⟨some url, some sv⟩ (some tokv) net =
          ⟨⟨400, .message invalidUrlMessage⟩, 0, none⟩) := by
  constructor
  · intro s b h
    exact (matchProjectId_eq_some s b h).2.1
  · intro url pre seg post hurl huniq hhash hbad
    have hnone := matchProjectId_eq_none_of_bad url.data pre seg post hurl huniq hhash hbad
    refine ⟨hnone, ?_⟩
    intro sv tokv net htok hsev
    have hu : url ≠ "" := by
      rintro rfl
      have hlen := congrArg List.length hurl
      simp only [List.length_append] at hlen
      simp [litProject] at hlen
      omega
    have hs : sv ≠ "" := by
      rintro rfl
      simp [toLowerCase, validSeverities] at hsev
    have hstep : handler ⟨some url, some sv⟩ (some tokv) net =
        tryBlock url sv (toLowerCase sv) net := by
      simp [handler, truthy, hu, hs, htok, hsev]
    cases ho : matchOrgSlug url.data <;> cases hi : matchIssueId url.data <;>
      simp [hstep, tryBlock, ho, hi, hnone]

/-- Witness for C10: an uppercase project segment makes the extraction
fail and the handler answer 400. -/
theorem spec_C10_witness :
    matchProjectId ("/project/ABC#x" : String).data = none ∧
    handler ⟨some "/project/ABC#x", some "low"⟩ (some "t") ⟨.ok ⟨none⟩, []⟩ =
      ⟨⟨400, .message invalidUrlMessage⟩, 0, none⟩ := by
  have h := spec_C10.2 "/project/ABC#x" [] "ABC".data "x".data (by decide) (by decide)
    (by decide) (by decide)
  exact ⟨h.1, h.2 "low" "t" ⟨.ok ⟨none⟩, []⟩ (by decide) (by decide)⟩
